import Mathlib

/-!
Shallow embedding of the CrewAI translation-crew pipeline
(`translation_engine.py`, `utils.py`, `translation_system.py`,
`document_io.py`, `config.py`).  Python strings are modelled as Lean
`String`s manipulated through character lists; machine behaviour that is
pure (cleaning, parsing, alignment, batching, document patching) is
translated function by function from the source.  The fallible CrewAI
backend is modelled as an oracle `Nat → String → Option String`
(batch index and task prompt body to raw response; `none` is a raised
exception).
-/

namespace CrewTrans

/-! ### Python-style string primitives (character-list based) -/

/-- Python `str.strip()`: drop whitespace from both ends. -/
def pyStrip (s : String) : String :=
  ⟨((s.data.dropWhile Char.isWhitespace).reverse.dropWhile Char.isWhitespace).reverse⟩

/-- Python `str.lower()` (ASCII model). -/
def pyLower (s : String) : String := ⟨s.data.map Char.toLower⟩

/-- Python `str.startswith(p)`. -/
def pyStartsWith (s p : String) : Bool := p.data.isPrefixOf s.data

/-- Python slicing `s[n:]` (by characters). -/
def pyDrop (s : String) (n : Nat) : String := ⟨s.data.drop n⟩

/-- Does `sub` occur as a contiguous substring (Python `sub in s`)? -/
def subOccurs (sub : List Char) : List Char → Bool
  | [] => sub.isEmpty
  | c :: t => sub.isPrefixOf (c :: t) || subOccurs sub t

/-- Python `s.split('\n')`: auxiliary walk accumulating the current line. -/
def splitNlAux : List Char → List Char → List String
  | [], cur => [⟨cur.reverse⟩]
  | c :: cs, cur =>
      if c = '\n' then ⟨cur.reverse⟩ :: splitNlAux cs []
      else splitNlAux cs (c :: cur)

/-- Python `s.split('\n')`. -/
def splitNl (s : String) : List String := splitNlAux s.data []

/-! ### `utils.TextCleaner` -/

/-- `TextCleaner.PREFIXES_TO_REMOVE`. -/
def PREFIXES_TO_REMOVE : List String :=
  ["Translation:", "Here is the translation:", "The translation is:",
   "Translated text:", "Result:", "Output:", "Answer:", "Response:"]

/-- `TextCleaner.METADATA_KEYWORDS`. -/
def METADATA_KEYWORDS : List String :=
  ["used_tools=", "tools_errors=", "delegations=", "i18n="]

/-- The prefix-stripping loop of `clean_translation_result` (first
case-insensitive match wins, applied once). -/
def dropPreAux : List String → String → String
  | [], t => t
  | p :: ps, t =>
      if pyStartsWith (pyLower t) (pyLower p) then pyStrip (pyDrop t p.data.length)
      else dropPreAux ps t

/-- The per-line keep condition of `clean_translation_result` (the line is
already stripped). -/
def keepLine (line : String) : Bool :=
  if METADATA_KEYWORDS.any (fun kw => subOccurs kw.data (pyLower line).data) then false
  else if pyStartsWith line "[Translation of item" then false
  else !(line == "") && !(pyStartsWith line "#")

/-- `TextCleaner.clean_translation_result`. -/
def clean_translation_result (resultText : String) : String :=
  let text := pyStrip resultText
  let text := dropPreAux PREFIXES_TO_REMOVE text
  let kept := ((splitNl text).map pyStrip).filter keepLine
  pyStrip (String.intercalate "\n" kept)

/-! ### `TranslationEngine._parse_translation_result`: marker detection -/

/-- After at least one digit: more digits may follow, then a `'.'` is
required (`re.match(r'^\d+\.', line)` tail). -/
def markerTail : List Char → Bool
  | [] => false
  | c :: rest => if c.isDigit then markerTail rest else c = '.'

/-- Does the (stripped) line start with `\d+\.`? -/
def isMarker (line : String) : Bool :=
  match line.data with
  | [] => false
  | c :: rest => c.isDigit && markerTail rest

/-- Character-level action of `re.sub(r'^\d+\.\s*', '', line)` once the
leading digits have begun. -/
def dropMarkerChars : List Char → List Char
  | [] => []
  | c :: rest =>
      if c.isDigit then dropMarkerChars rest
      else if c = '.' then rest.dropWhile Char.isWhitespace
      else c :: rest

/-- `re.sub(r'^\d+\.\s*', '', line)`: strips the numeric marker when the
line matches, else leaves the line unchanged. -/
def subMarker (line : String) : String :=
  if isMarker line then ⟨dropMarkerChars line.data⟩ else line

/-- The line loop of `_parse_translation_result`: state is the accumulated
`current_text` and the emitted items so far. -/
def parseLoop : List String → String → List String → List String
  | [], cur, acc => if cur ≠ "" then acc ++ [pyStrip cur] else acc
  | l :: rest, cur, acc =>
      let line := pyStrip l
      if isMarker line then
        parseLoop rest (subMarker line)
          (if cur ≠ "" then acc ++ [pyStrip cur] else acc)
      else if cur ≠ "" then
        if line ≠ "" then parseLoop rest (cur ++ " " ++ line) acc
        else parseLoop rest cur acc
      else parseLoop rest cur acc

/-- The numbered-item splitting step of `_parse_translation_result`
(operates on the cleaned text). -/
def splitItems (cleaned : String) : List String := parseLoop (splitNl cleaned) "" []

/-! ### `TranslationEngine._align_translations_with_inputs` -/

/-- `_align_translations_with_inputs`: walk the batch; a non-empty
original consumes the next parsed item when available (else falls back to
itself); an empty original is echoed without consuming. -/
def align_translations_with_inputs : List String → List String → List String
  | _, [] => []
  | translated, o :: rest =>
      if pyStrip o ≠ "" then
        match translated with
        | t :: ts => t :: align_translations_with_inputs ts rest
        | [] => o :: align_translations_with_inputs [] rest
      else o :: align_translations_with_inputs translated rest

/-- `TranslationEngine._parse_translation_result`: clean, split into
numbered items, align against the batch. -/
def parse_translation_result (raw : String) (batchTexts : List String) : List String :=
  align_translations_with_inputs (splitItems (clean_translation_result raw)) batchTexts

/-! ### Text units (`DocumentAnalyzer.analyze_paragraph_structure` output,
consumed by the batch processor) -/

/-- One paragraph structure record as built by
`analyze_paragraph_structure` and threaded through the pipeline. -/
structure Para where
  index : Nat
  text : String
  isBold : Bool
  isItalic : Bool
  alignment : Option Nat
  styleName : String
  hasImage : Bool
  imageData : Option String
  deriving DecidableEq

instance : Inhabited Para :=
  ⟨{ index := 0, text := "", isBold := false, isItalic := false,
     alignment := none, styleName := "Normal", hasImage := false,
     imageData := none }⟩

/-! ### `TranslationEngine.translate_batch` -/

/-- The CrewAI crew, as an oracle: batch index and numbered prompt body to
raw response text; `none` models a raised exception. -/
def Backend : Type := Nat → String → Option String

/-- The numbered-prompt loop of `translate_batch`
(`enumerate(batch_texts, 1)`, keeping only non-empty texts). -/
def numberedTexts : Nat → List String → List String
  | _, [] => []
  | i, t :: ts =>
      if pyStrip t ≠ "" then (toString i ++ ". " ++ t) :: numberedTexts (i + 1) ts
      else numberedTexts (i + 1) ts

/-- The `batch_text` joined prompt body of `translate_batch`. -/
def buildBatchText (batchTexts : List String) : String :=
  String.intercalate "\n\n" (numberedTexts 1 batchTexts)

/-- `TranslationEngine.translate_batch`: skip the backend when no text is
non-empty; on a raised exception return the originals; otherwise parse and
align the raw response. -/
def translate_batch (backend : Backend) (batchTexts : List String)
    (batchIndex : Nat) : List String :=
  if numberedTexts 1 batchTexts = [] then batchTexts
  else
    match backend batchIndex (buildBatchText batchTexts) with
    | none => batchTexts
    | some raw => parse_translation_result raw batchTexts

/-! ### `BatchProcessor.process_paragraphs` -/

/-- Write a batch's aligned translations back into the paragraph records
(`new_para = batch[j].copy(); new_para['text'] = translated_text`,
guarded by `j < len(batch)`). -/
def updateBatch (batch : List Para) (ts : List String) : List Para :=
  List.zipWith (fun p t => { p with text := t }) batch ts

/-- The batch loop of `process_paragraphs` for batch size `k + 1`
(Python iterates `range(0, len(paragraphs), batch_size)`). -/
def processAuxS (backend : Backend) (k : Nat) : List Para → Nat → List Para
  | [], _ => []
  | p :: rest, bi =>
      let batch := (p :: rest).take (k + 1)
      updateBatch batch (translate_batch backend (batch.map Para.text) bi)
        ++ processAuxS backend k ((p :: rest).drop (k + 1)) (bi + 1)
  termination_by l _ => l.length
  decreasing_by simp [List.length_drop]; omega

/-- `BatchProcessor.process_paragraphs` for a positive batch size `bs`
(Python raises on step `0`, so the function is only meaningful there;
theorems carry `0 < bs`). -/
def process_paragraphs (backend : Backend) (bs : Nat) (paras : List Para) :
    List Para :=
  processAuxS backend (bs - 1) paras 0

/-- The contiguous slices `paragraphs[i:i+batch_size]` visited by the batch
loop, for batch size `k + 1`. -/
def chunksOfS (k : Nat) : List Para → List (List Para)
  | [] => []
  | p :: rest => (p :: rest).take (k + 1) :: chunksOfS k ((p :: rest).drop (k + 1))
  termination_by l => l.length
  decreasing_by simp [List.length_drop]; omega

/-! ### `config.Config` -/

/-- The configuration mapping, restricted to the keys the pipeline reads.
Keys accessed with `config[...]` are required fields; keys accessed with
`config.get(key, default)` are `Option`s (`none` = key absent). -/
structure ConfigMap where
  target_language : String
  input_doc : String
  output_doc : String
  batch_size : Option Nat
  batch_delay : Option Nat
  verbose : Option Bool
  deriving DecidableEq

/-- `Config.DEFAULT_CONFIG` (the keys modelled here). -/
def DEFAULT_CONFIG : ConfigMap :=
  { target_language := "Hindi", input_doc := "input.docx",
    output_doc := "translated_paper.docx", batch_size := some 2,
    batch_delay := none, verbose := some false }

/-- `self.config.get('batch_size', 3)` in `process_paragraphs`. -/
def cfgBatchSize (c : ConfigMap) : Nat := c.batch_size.getD 3

/-- `process_paragraphs` as called with a configuration mapping. -/
def process_paragraphs_cfg (backend : Backend) (c : ConfigMap)
    (paras : List Para) : List Para :=
  process_paragraphs backend (cfgBatchSize c) paras

/-! ### Document content and the orchestrator
(`document_io.py`, `translation_system.py`) -/

/-- One table snapshot (`extract_tables_from_document` output). -/
structure TableSnap where
  index : Nat
  data : List (List String)
  rows : Nat
  cols : Nat
  deriving DecidableEq

/-- One image catalog entry (`extract_images_from_document` values). -/
structure ImageInfo where
  data : String
  contentType : String
  filename : String
  deriving DecidableEq

/-- Document metadata (subset threaded through the pipeline). -/
structure DocMeta where
  total_paragraphs : Nat
  total_tables : Nat
  total_images : Nat
  deriving DecidableEq

/-- The content dictionary produced by `DocumentReader._run`. -/
structure DocContent where
  paragraphs : List Para
  tables : List TableSnap
  images : List (String × ImageInfo)
  metadata : DocMeta
  deriving DecidableEq

/-- `TranslationSystem._translate_tables`: pass through the tables that have
non-empty data. -/
def translate_tables (tables : List TableSnap) : List TableSnap :=
  tables.filter (fun t => t.data ≠ [])

/-- `TranslationSystem._create_translated_content`. -/
def create_translated_content (translatedParagraphs : List Para)
    (translatedTables : List TableSnap) (docContent : DocContent) : DocContent :=
  { paragraphs := translatedParagraphs, tables := translatedTables,
    images := docContent.images, metadata := docContent.metadata }

/-- The run summary record of `TranslationSystem._create_result_summary`. -/
structure ResultSummary where
  status : String
  output_file : String
  paragraphs_translated : Nat
  tables_translated : Nat
  images_preserved : Nat
  total_paragraphs : Nat
  target_language : String
  deriving DecidableEq

/-- `TranslationSystem._create_result_summary`. -/
def create_result_summary (translatedParagraphs : List Para)
    (translatedTables : List TableSnap) (docContent : DocContent)
    (cfg : ConfigMap) : ResultSummary :=
  { status := "completed", output_file := cfg.output_doc,
    paragraphs_translated := translatedParagraphs.length,
    tables_translated := translatedTables.length,
    images_preserved := docContent.images.length,
    total_paragraphs := docContent.paragraphs.length,
    target_language := cfg.target_language }

/-- `TranslationSystem.run_translation`, given the already-read document
content (document I/O is external): translate paragraphs, pass tables
through, assemble content, and summarize. -/
def run_translation (backend : Backend) (cfg : ConfigMap)
    (docContent : DocContent) : DocContent × ResultSummary :=
  let translatedParagraphs := process_paragraphs_cfg backend cfg docContent.paragraphs
  let translatedTables := translate_tables docContent.tables
  (create_translated_content translatedParagraphs translatedTables docContent,
   create_result_summary translatedParagraphs translatedTables docContent cfg)

/-! ### `DocumentWriter._update_paragraph_text` (patch-based writing) -/

/-- One docx run as the writer sees it: whether its XML carries an embedded
picture (`.//pic:pic`), and its text. -/
structure Run where
  hasPic : Bool
  text : String
  deriving DecidableEq

/-- The clearing loop of the no-image branch: blank the text of every run
that does not carry a picture. -/
def clearNonPicTexts (runs : List Run) : List Run :=
  runs.map (fun r => if r.hasPic then r else { r with text := "" })

/-- Find the first run without a picture and set its text (the
`first_text_run` / `text_updated` loops); `none` when every run carries a
picture or there are no runs. -/
def setFirstNonPic : List Run → String → Option (List Run)
  | [], _ => none
  | r :: rs, t =>
      if r.hasPic then (setFirstNonPic rs t).map (r :: ·)
      else some ({ r with text := t } :: rs)

/-- `DocumentWriter._update_paragraph_text`: patch one original paragraph's
runs from the translated record `(transText, transHasImage)`. -/
def update_paragraph_text (runs : List Run) (transText : String)
    (transHasImage : Bool) : List Run :=
  if pyStrip transText ≠ "" ∧ transHasImage = false then
    let cleared := clearNonPicTexts runs
    match setFirstNonPic cleared transText with
    | some rs => rs
    | none => cleared ++ [{ hasPic := false, text := transText }]
  else if pyStrip transText ≠ "" ∧ transHasImage = true then
    match setFirstNonPic runs transText with
    | some rs => rs
    | none => runs ++ [{ hasPic := false, text := " " ++ transText }]
  else runs

/-! ### `DocumentAnalyzer.analyze_paragraph_structure` -/

/-- One docx run as the analyzer sees it: bold/italic flags, whether it
carries an embedded picture, and the `r:embed` attributes of its
`a:blip` elements in order (`none` = attribute absent). -/
structure RunA where
  bold : Bool
  italic : Bool
  pics : Bool
  blips : List (Option String)
  deriving DecidableEq

/-- The mutable fields of the `structure` dict that the run loop of
`analyze_paragraph_structure` updates. -/
structure AnalysisState where
  isBold : Bool
  isItalic : Bool
  hasImage : Bool
  imageData : Option String
  deriving DecidableEq

/-- The inner `a:blip` loop: first embed attribute that is truthy in
Python (present and non-empty). -/
def firstTruthy : List (Option String) → Option String
  | [] => none
  | some s :: rest => if s ≠ "" then some s else firstTruthy rest
  | none :: rest => firstTruthy rest

/-- One iteration of the run loop of `analyze_paragraph_structure`. -/
def analyzeStep (st : AnalysisState) (r : RunA) : AnalysisState :=
  let st := if r.bold then { st with isBold := true } else st
  let st := if r.italic then { st with isItalic := true } else st
  if r.pics then
    let st := { st with hasImage := true }
    match firstTruthy r.blips with
    | some v => { st with imageData := some v }
    | none => st
  else st

/-- `DocumentAnalyzer.analyze_paragraph_structure`, restricted to the
fields the run loop computes. -/
def analyze_paragraph_structure (runs : List RunA) : AnalysisState :=
  runs.foldl analyzeStep
    { isBold := false, isItalic := false, hasImage := false, imageData := none }

/-! ### Comparison definitions and concrete helpers -/

/-- How many originals strictly before position `i` are non-empty after
trimming (the value of `translated_index` when the alignment loop reaches
position `i`). -/
def nonEmptyBefore (batch : List String) (i : Nat) : Nat :=
  ((batch.take i).filter (fun s => pyStrip s != "")).length

/-- A paragraph record with all defaults (handy concrete input). -/
def mkPara (i : Nat) (t : String) : Para :=
  { index := i, text := t, isBold := false, isItalic := false,
    alignment := none, styleName := "Normal", hasImage := false,
    imageData := none }

/-- The always-failing backend (every call raises). -/
def noneBackend : Backend := fun _ _ => none

/-- A backend that always returns the same raw response. -/
def constBackend (raw : String) : Backend := fun _ _ => some raw

/-- A paragraph record with its text blanked; two records agree on
`eraseText` exactly when they differ at most in `text`. -/
def eraseText (p : Para) : Para := { p with text := "" }

/-- Modelled from the claim's wording (C5), for comparison with
`parseLoop`: every `N.` marker starts a new item whose text is the
marker-stripped line, subsequent non-marker non-empty lines are
space-joined onto the current item, and every started item is emitted in
textual marker order. -/
def claimLoop : List String → Option String → List String
  | [], cur => match cur with | some c => [pyStrip c] | none => []
  | l :: rest, cur =>
      let lt := pyStrip l
      if isMarker lt then
        match cur with
        | some c => pyStrip c :: claimLoop rest (some (subMarker lt))
        | none => claimLoop rest (some (subMarker lt))
      else
        match cur with
        | some c =>
            if lt = "" then claimLoop rest (some c)
            else claimLoop rest (some (c ++ " " ++ lt))
        | none => claimLoop rest none

/-- The item sequence C5 claims the parser produces. -/
def claimItems (cleaned : String) : List String := claimLoop (splitNl cleaned) none

/-- The amended item-splitting policy: as `claimLoop`, except that a
marker whose marker-stripped text is empty starts no item (the
accumulator is reset to "no current item", so the lines that follow it
are discarded until the next marker, and no empty item is emitted). -/
def amendedLoop : List String → Option String → List String
  | [], cur => match cur with | some c => [pyStrip c] | none => []
  | l :: rest, cur =>
      let lt := pyStrip l
      if isMarker lt then
        let seed := subMarker lt
        match cur with
        | some c =>
            pyStrip c :: amendedLoop rest (if seed = "" then none else some seed)
        | none => amendedLoop rest (if seed = "" then none else some seed)
      else
        match cur with
        | some c =>
            if lt = "" then amendedLoop rest (some c)
            else amendedLoop rest (some (c ++ " " ++ lt))
        | none => amendedLoop rest none

/-- The `current_text` string of the parser loop viewed as the
optional current item of `amendedLoop` (empty string = no item). -/
def optOfStr (c : String) : Option String := if c = "" then none else some c

/-- Index of the first run without an embedded picture (the writer's
`first_text_run` search, as a position). -/
def firstNonPicIdx : List Run → Option Nat
  | [] => none
  | r :: rs => if r.hasPic then (firstNonPicIdx rs).map (· + 1) else some 0

/-- Modelled from the claim's wording (C8), for comparison with
`analyze_paragraph_structure`: the relationship identifier of the first
embedded image encountered in the paragraph (scanning picture-bearing
runs in order, their blips in order). -/
def claimImageData (runs : List RunA) : Option String :=
  firstTruthy ((runs.filter (fun r => r.pics)).flatMap (fun r => r.blips))

/-- First truthy embed identifier contributed by a run of the list,
scanning runs in order (picture-bearing runs contribute the first truthy
identifier among their blips). -/
def firstPicData : List RunA → Option String
  | [] => none
  | r :: rs =>
      match (if r.pics then firstTruthy r.blips else none) with
      | some v => some v
      | none => firstPicData rs

/-- The identifier `analyze_paragraph_structure` actually keeps: each
picture-bearing run with a truthy embed identifier overwrites the stored
value, so the result is the first truthy identifier of the last such
run. -/
def lastRunImageData (runs : List RunA) : Option String :=
  firstPicData runs.reverse

/-! ## Helper lemmas -/

lemma nonEmptyBefore_zero (batch : List String) : nonEmptyBefore batch 0 = 0 := by
  simp [nonEmptyBefore]

lemma nonEmptyBefore_cons (o : String) (rest : List String) (i : Nat) :
    nonEmptyBefore (o :: rest) (i + 1) =
      (if pyStrip o = "" then 0 else 1) + nonEmptyBefore rest i := by
  simp only [nonEmptyBefore, List.take_succ_cons, List.filter_cons]
  by_cases h : pyStrip o = ""
  · simp [h]
  · simp [h]; omega

lemma align_length (ts batch : List String) :
    (align_translations_with_inputs ts batch).length = batch.length := by
  induction batch generalizing ts with
  | nil => simp [align_translations_with_inputs]
  | cons o rest ih =>
    cases ts with
    | nil =>
      by_cases h : pyStrip o = "" <;> simp [align_translations_with_inputs, h, ih]
    | cons t ts' =>
      by_cases h : pyStrip o = "" <;> simp [align_translations_with_inputs, h, ih]

lemma align_getD (batch : List String) :
    ∀ (ts : List String) (i : Nat), i < batch.length →
      (align_translations_with_inputs ts batch).getD i "" =
        (if pyStrip (batch.getD i "") = "" then batch.getD i ""
         else if nonEmptyBefore batch i < ts.length then ts.getD (nonEmptyBefore batch i) ""
         else batch.getD i "") := by
  induction batch with
  | nil => intro ts i h; simp at h
  | cons o rest ih =>
    intro ts i h
    by_cases ho : pyStrip o = ""
    · cases i with
      | zero => simp [align_translations_with_inputs, ho, nonEmptyBefore_zero]
      | succ i =>
        have hi : i < rest.length := by simpa using h
        have := ih ts i hi
        simpa [align_translations_with_inputs, ho, nonEmptyBefore_cons] using this
    · cases ts with
      | nil =>
        cases i with
        | zero => simp [align_translations_with_inputs, ho, nonEmptyBefore_zero]
        | succ i =>
          have hi : i < rest.length := by simpa using h
          have h2 := ih [] i hi
          have h3 : (align_translations_with_inputs [] rest).getD i "" =
              rest.getD i "" := by
            rw [h2]; split <;> simp
          have h4 : align_translations_with_inputs [] (o :: rest) =
              o :: align_translations_with_inputs [] rest := by
            simp [align_translations_with_inputs, ho]
          rw [h4]
          simp only [List.getD_cons_succ, nonEmptyBefore_cons, List.length_nil]
          rw [h3]
          split
          · rfl
          · rw [if_neg (Nat.not_lt_zero _)]
      | cons t ts' =>
        cases i with
        | zero =>
          simp [align_translations_with_inputs, ho, nonEmptyBefore_zero]
        | succ i =>
          have hi : i < rest.length := by simpa using h
          have h2 := ih ts' i hi
          have h4 : align_translations_with_inputs (t :: ts') (o :: rest) =
              t :: align_translations_with_inputs ts' rest := by
            simp [align_translations_with_inputs, ho]
          rw [h4]
          simp only [List.getD_cons_succ, nonEmptyBefore_cons, List.length_cons]
          simp only [if_neg ho]
          rw [h2]
          by_cases he : pyStrip (rest.getD i "") = ""
          · rw [if_pos he, if_pos he]
          · simp only [if_neg he]
            by_cases hlt : nonEmptyBefore rest i < ts'.length
            · rw [if_pos hlt,
                if_pos (by omega : 1 + nonEmptyBefore rest i < ts'.length + 1)]
              rw [Nat.add_comm 1 (nonEmptyBefore rest i), List.getD_cons_succ]
            · rw [if_neg hlt,
                if_neg (by omega : ¬ 1 + nonEmptyBefore rest i < ts'.length + 1)]

lemma translate_batch_length (backend : Backend) (texts : List String) (bi : Nat) :
    (translate_batch backend texts bi).length = texts.length := by
  unfold translate_batch
  by_cases hn : numberedTexts 1 texts = []
  · simp [hn]
  · rw [if_neg hn]
    cases hb : backend bi (buildBatchText texts) with
    | none => rfl
    | some raw => simp [parse_translation_result, align_length]

lemma updateBatch_map_erase :
    ∀ (batch : List Para) (ts : List String), ts.length = batch.length →
      (updateBatch batch ts).map eraseText = batch.map eraseText := by
  intro batch
  induction batch with
  | nil => intro ts h; simp [updateBatch]
  | cons p ps ih =>
    intro ts h
    cases ts with
    | nil => simp at h
    | cons t ts' =>
      simp only [updateBatch, List.zipWith_cons_cons, List.map_cons] at ih ⊢
      rw [show eraseText { p with text := t } = eraseText p from by cases p; rfl]
      rw [ih ts' (by simpa using h)]

lemma processAuxS_map_erase (backend : Backend) (k : Nat) (l : List Para) (bi : Nat) :
    (processAuxS backend k l bi).map eraseText = l.map eraseText := by
  suffices h : ∀ (n : Nat) (l : List Para) (bi : Nat), l.length ≤ n →
      (processAuxS backend k l bi).map eraseText = l.map eraseText from
    h l.length l bi le_rfl
  intro n
  induction n with
  | zero =>
    intro l bi h
    obtain rfl : l = [] := List.length_eq_zero.mp (Nat.le_zero.mp h)
    simp [processAuxS]
  | succ n ih =>
    intro l bi h
    cases l with
    | nil => simp [processAuxS]
    | cons p rest =>
      rw [processAuxS]
      simp only [List.map_append]
      rw [updateBatch_map_erase _ _ (by simp [translate_batch_length])]
      rw [ih ((p :: rest).drop (k + 1)) (bi + 1)
        (by simp only [List.length_drop]; simp at h ⊢; omega)]
      rw [← List.map_append, List.take_append_drop]

lemma processAuxS_length (backend : Backend) (k : Nat) (l : List Para) (bi : Nat) :
    (processAuxS backend k l bi).length = l.length := by
  have h := congrArg List.length (processAuxS_map_erase backend k l bi)
  simpa using h

lemma getD_map_eraseText (l : List Para) (i : Nat) :
    (l.map eraseText).getD i (eraseText default) = eraseText (l.getD i default) := by
  simp only [List.getD_eq_getElem?_getD, List.getElem?_map]
  cases l[i]? <;> rfl

lemma eraseText_eq_imp (a b : Para) (h : eraseText a = eraseText b) :
    a.index = b.index ∧ a = { b with text := a.text } := by
  cases a; cases b
  simp only [eraseText, Para.mk.injEq] at h ⊢
  simp_all

lemma processAuxS_eq_chunks (backend : Backend) (k : Nat) (l : List Para) (bi : Nat) :
    processAuxS backend k l bi =
      ((List.enumFrom bi (chunksOfS k l)).map (fun pr =>
        updateBatch pr.2 (translate_batch backend (pr.2.map Para.text) pr.1))).flatten := by
  suffices h : ∀ (n : Nat) (l : List Para) (bi : Nat), l.length ≤ n →
      processAuxS backend k l bi =
        ((List.enumFrom bi (chunksOfS k l)).map (fun pr =>
          updateBatch pr.2 (translate_batch backend (pr.2.map Para.text) pr.1))).flatten from
    h l.length l bi le_rfl
  intro n
  induction n with
  | zero =>
    intro l bi h
    obtain rfl : l = [] := List.length_eq_zero.mp (Nat.le_zero.mp h)
    simp [processAuxS, chunksOfS]
  | succ n ih =>
    intro l bi h
    cases l with
    | nil => simp [processAuxS, chunksOfS]
    | cons p rest =>
      rw [processAuxS, chunksOfS]
      simp only [List.enumFrom, List.map_cons, List.flatten]
      rw [ih ((p :: rest).drop (k + 1)) (bi + 1)
        (by simp only [List.length_drop]; simp at h ⊢; omega)]

lemma numberedTexts_enumFrom (n : Nat) (ts : List String) :
    numberedTexts (n + 1) ts = (List.enumFrom n ts).filterMap (fun pr =>
      if pyStrip pr.2 = "" then none
      else some (toString (pr.1 + 1) ++ ". " ++ pr.2)) := by
  induction ts generalizing n with
  | nil => simp [numberedTexts, List.enumFrom]
  | cons t ts' ih =>
    simp only [numberedTexts, List.enumFrom, List.filterMap_cons]
    by_cases h : pyStrip t = ""
    · simp [h, ih (n + 1)]
    · simp [h, ih (n + 1)]

lemma numberedTexts_all_empty :
    ∀ (i : Nat) (ts : List String), (∀ t ∈ ts, pyStrip t = "") →
      numberedTexts i ts = [] := by
  intro i ts
  induction ts generalizing i with
  | nil => intro _; rfl
  | cons t ts' ih =>
    intro h
    have ht : pyStrip t = "" := h t (by simp)
    simp only [numberedTexts, ht]
    simpa using ih (i + 1) (fun x hx => h x (by simp [hx]))

lemma setFirstNonPic_eq (runs : List Run) (t : String) :
    setFirstNonPic runs t = (firstNonPicIdx runs).map (fun i =>
      runs.take i ++ { hasPic := false, text := t } :: runs.drop (i + 1)) := by
  induction runs with
  | nil => rfl
  | cons r rs ih =>
    by_cases hp : r.hasPic
    · simp only [setFirstNonPic, firstNonPicIdx, hp, if_true, ih, Option.map_map]
      cases firstNonPicIdx rs <;> simp
    · obtain ⟨hpv, tx⟩ := r
      simp only at hp
      have hf : hpv = false := by revert hp; cases hpv <;> simp
      subst hf
      simp [setFirstNonPic, firstNonPicIdx]

lemma filter_clearNonPic (runs : List Run) :
    (clearNonPicTexts runs).filter Run.hasPic = runs.filter Run.hasPic := by
  induction runs with
  | nil => rfl
  | cons r rs ih =>
    simp only [clearNonPicTexts, List.map_cons] at ih ⊢
    by_cases hp : r.hasPic
    · simp [hp, List.filter_cons, ih]
    · simp [hp, List.filter_cons, ih]

lemma setFirstNonPic_filter :
    ∀ (runs : List Run) (t : String) (rs : List Run),
      setFirstNonPic runs t = some rs →
      rs.filter Run.hasPic = runs.filter Run.hasPic := by
  intro runs t
  induction runs with
  | nil => intro rs h; simp [setFirstNonPic] at h
  | cons r rl ih =>
    intro rs h
    simp only [setFirstNonPic] at h
    by_cases hp : r.hasPic
    · rw [if_pos hp] at h
      cases hrec : setFirstNonPic rl t with
      | none => rw [hrec] at h; simp at h
      | some rs' =>
        rw [hrec] at h
        simp at h
        subst h
        simp [List.filter_cons, hp, ih rs' hrec]
    · rw [if_neg hp] at h
      simp only [Option.some.injEq] at h
      subst h
      simp [List.filter_cons, hp]

lemma firstPicData_append (l1 l2 : List RunA) :
    firstPicData (l1 ++ l2) =
      (match firstPicData l1 with
       | some v => some v
       | none => firstPicData l2) := by
  induction l1 with
  | nil => simp [firstPicData]
  | cons r rs ih =>
    simp only [List.cons_append, firstPicData]
    cases (if r.pics then firstTruthy r.blips else none) <;> simp [ih]

lemma analyzeStep_imageData (st : AnalysisState) (r : RunA) :
    (analyzeStep st r).imageData =
      (match (if r.pics then firstTruthy r.blips else none) with
       | some v => some v
       | none => st.imageData) := by
  by_cases hp : r.pics
  · cases hv : firstTruthy r.blips <;>
      by_cases hb : r.bold <;> by_cases hi : r.italic <;>
        simp [analyzeStep, hb, hi, hp, hv]
  · by_cases hb : r.bold <;> by_cases hi : r.italic <;>
      simp [analyzeStep, hb, hi, hp]

lemma analyzeStep_hasImage (st : AnalysisState) (r : RunA) :
    (analyzeStep st r).hasImage = (st.hasImage || r.pics) := by
  by_cases hp : r.pics
  · cases hv : firstTruthy r.blips <;>
      by_cases hb : r.bold <;> by_cases hi : r.italic <;>
        simp [analyzeStep, hb, hi, hp, hv]
  · by_cases hb : r.bold <;> by_cases hi : r.italic <;>
      simp [analyzeStep, hb, hi, hp]

lemma foldl_hasImage :
    ∀ (runs : List RunA) (st : AnalysisState),
      (runs.foldl analyzeStep st).hasImage =
        (st.hasImage || runs.any (fun r => r.pics)) := by
  intro runs
  induction runs with
  | nil => intro st; simp
  | cons r rs ih =>
    intro st
    simp only [List.foldl_cons, List.any_cons]
    rw [ih, analyzeStep_hasImage, Bool.or_assoc]

lemma foldl_imageData :
    ∀ (runs : List RunA) (st : AnalysisState),
      (runs.foldl analyzeStep st).imageData =
        (match firstPicData runs.reverse with
         | some v => some v
         | none => st.imageData) := by
  intro runs
  induction runs with
  | nil => intro st; simp [firstPicData]
  | cons r rs ih =>
    intro st
    simp only [List.foldl_cons, List.reverse_cons]
    rw [ih, firstPicData_append]
    cases h1 : firstPicData rs.reverse
    · simp only
      rw [analyzeStep_imageData]
      cases h2 : (if r.pics then firstTruthy r.blips else none) <;>
        simp [firstPicData, h2]
    · simp [firstPicData]

lemma append_space_ne (a b : String) : a ++ " " ++ b ≠ "" := by
  intro h
  have hd := congrArg String.data h
  simp [String.data_append] at hd

lemma parseLoop_eq_amended :
    ∀ (lines : List String) (cur : String) (acc : List String),
      parseLoop lines cur acc = acc ++ amendedLoop lines (optOfStr cur) := by
  intro lines
  induction lines with
  | nil =>
    intro cur acc
    by_cases hc : cur = ""
    · simp [parseLoop, amendedLoop, optOfStr, hc]
    · simp [parseLoop, amendedLoop, optOfStr, hc]
  | cons l rest ih =>
    intro cur acc
    simp only [parseLoop, amendedLoop]
    by_cases hm : isMarker (pyStrip l)
    · rw [if_pos hm, if_pos hm]
      by_cases hc : cur = ""
      · rw [if_neg (by simp [hc]), ih]
        simp [optOfStr, hc]
      · rw [if_pos hc, ih]
        simp [optOfStr, hc]
    · rw [if_neg hm, if_neg hm]
      by_cases hc : cur = ""
      · rw [if_neg (by simp [hc]), ih]
        simp [optOfStr, hc]
      · rw [if_pos hc]
        by_cases hl : pyStrip l = ""
        · rw [if_neg (by simp [hl]), ih]
          simp [optOfStr, hc, hl]
        · rw [if_pos hl, ih]
          simp [optOfStr, hc, hl, append_space_ne]

/-! ## Claims -/

/-- C1: for every raw response string and every original batch, the
alignment parse returns exactly one output per batch entry, in batch
order: a non-empty (after trimming) original at position `i` receives the
`nonEmptyBefore`-th parsed item when that many items exist, else its own
text; an empty original is echoed unchanged without consuming an item;
parsed items beyond the number of non-empty originals are discarded
(no position ever reads past its own consumption index). -/
theorem c1_alignment_parse (raw : String) (batch : List String) :
    (parse_translation_result raw batch).length = batch.length ∧
    ∀ i, i < batch.length →
      (parse_translation_result raw batch).getD i "" =
        (if pyStrip (batch.getD i "") = "" then batch.getD i ""
         else if nonEmptyBefore batch i <
            (splitItems (clean_translation_result raw)).length then
           (splitItems (clean_translation_result raw)).getD (nonEmptyBefore batch i) ""
         else batch.getD i "") := by
  constructor
  · exact align_length _ _
  · intro i h
    exact align_getD batch (splitItems (clean_translation_result raw)) i h

theorem c1_alignment_parse_witness :
    (0 < (["Hello", "", "World"] : List String).length) ∧
    (parse_translation_result "garbage with no markers" ["Hello", "", "World"]).length = 3 ∧
    (parse_translation_result "1. A\n2. B\n3. C" ["Hello", "", "World"]).getD 2 "" = "B" := by
  refine ⟨by decide, ?_, ?_⟩
  · exact (c1_alignment_parse "garbage with no markers" ["Hello", "", "World"]).1
  · have h := (c1_alignment_parse "1. A\n2. B\n3. C" ["Hello", "", "World"]).2 2 (by decide)
    rw [h]; decide

/-- C6: for the batch `["Hello world.", "", "Good morning."]` the numbered
prompt contains exactly items 1 and 3 (the empty slot is skipped), and
with the backend returning `"1. Bonjour le monde.\n2. Bonjour."` the
translated batch is `["Bonjour le monde.", "", "Bonjour."]`: the second
parsed item maps to the third input. -/
theorem c6_concrete_scenario :
    numberedTexts 1 ["Hello world.", "", "Good morning."] =
      ["1. Hello world.", "3. Good morning."] ∧
    translate_batch (fun _ _ => some "1. Bonjour le monde.\n2. Bonjour.")
      ["Hello world.", "", "Good morning."] 0 =
      ["Bonjour le monde.", "", "Bonjour."] := by
  constructor <;> decide

/-- C2: for every backend behaviour (success or exception) and every input
sequence, `process_paragraphs` returns a sequence of the same length, in
the same order: position `i`'s output record has the same `index` as
position `i`'s input record, and the two records can differ only in the
`text` field. -/
theorem c2_process_order_preserved (backend : Backend) (bs : Nat)
    (paras : List Para) (_h : 0 < bs) :
    (process_paragraphs backend bs paras).length = paras.length ∧
    (process_paragraphs backend bs paras).map eraseText = paras.map eraseText ∧
    ∀ i, i < paras.length →
      ((process_paragraphs backend bs paras).getD i default).index =
        (paras.getD i default).index ∧
      (process_paragraphs backend bs paras).getD i default =
        { paras.getD i default with
            text := ((process_paragraphs backend bs paras).getD i default).text } := by
  refine ⟨processAuxS_length backend (bs - 1) paras 0,
    processAuxS_map_erase backend (bs - 1) paras 0, ?_⟩
  intro i hi
  have hm := congrArg (fun l => l.getD i (eraseText default))
    (processAuxS_map_erase backend (bs - 1) paras 0)
  simp only at hm
  rw [getD_map_eraseText, getD_map_eraseText] at hm
  exact eraseText_eq_imp _ _ hm

theorem c2_process_order_preserved_witness :
    0 < 1 ∧
    (process_paragraphs noneBackend 1 [mkPara 5 "hello"]).length = 1 ∧
    ((process_paragraphs noneBackend 1 [mkPara 5 "hello"]).getD 0 default).index
      = 5 := by
  refine ⟨by decide, ?_, ?_⟩
  · have h := (c2_process_order_preserved noneBackend 1 [mkPara 5 "hello"]
      (by decide)).1
    simpa using h
  · have h := ((c2_process_order_preserved noneBackend 1 [mkPara 5 "hello"]
      (by decide)).2.2 0 (by decide)).1
    rw [h]; rfl

/-- C3: a backend exception on a batch makes `translate_batch` return that
batch's original texts unchanged; the whole run is the concatenation of
per-batch segments, each computed from its own chunk and its own backend
call only (so one batch's failure never aborts the run and never alters
any other batch's result); and a batch's result depends only on the
backend's behaviour at that batch's own index. -/
theorem c3_batch_failure_isolated :
    (∀ (backend : Backend) (texts : List String) (bi : Nat),
        backend bi (buildBatchText texts) = none →
        translate_batch backend texts bi = texts) ∧
    (∀ (backend : Backend) (bs : Nat) (paras : List Para), 0 < bs →
        process_paragraphs backend bs paras =
          ((List.enumFrom 0 (chunksOfS (bs - 1) paras)).map (fun pr =>
            updateBatch pr.2
              (translate_batch backend (pr.2.map Para.text) pr.1))).flatten) ∧
    (∀ (b1 b2 : Backend) (texts : List String) (bi : Nat),
        (∀ p, b1 bi p = b2 bi p) →
        translate_batch b1 texts bi = translate_batch b2 texts bi) := by
  refine ⟨?_, ?_, ?_⟩
  · intro backend texts bi hb
    unfold translate_batch
    by_cases hn : numberedTexts 1 texts = []
    · simp [hn]
    · rw [if_neg hn, hb]
  · intro backend bs paras _
    exact processAuxS_eq_chunks backend (bs - 1) paras 0
  · intro b1 b2 texts bi hb
    unfold translate_batch
    by_cases hn : numberedTexts 1 texts = []
    · simp [hn]
    · rw [if_neg hn, hb (buildBatchText texts), if_neg hn]

theorem c3_batch_failure_isolated_witness :
    noneBackend 0 (buildBatchText ["Hello"]) = none ∧
    translate_batch noneBackend ["Hello"] 0 = ["Hello"] ∧
    process_paragraphs noneBackend 2 [mkPara 0 "a"] =
      ((List.enumFrom 0 (chunksOfS 1 [mkPara 0 "a"])).map (fun pr =>
        updateBatch pr.2
          (translate_batch noneBackend (pr.2.map Para.text) pr.1))).flatten ∧
    translate_batch noneBackend ["Hello"] 7 =
      translate_batch (fun i _ => if i = 7 then none else some "junk")
        ["Hello"] 7 := by
  refine ⟨rfl, c3_batch_failure_isolated.1 noneBackend ["Hello"] 0 rfl,
    c3_batch_failure_isolated.2.1 noneBackend 2 [mkPara 0 "a"] (by decide), ?_⟩
  exact c3_batch_failure_isolated.2.2 noneBackend _ ["Hello"] 7
    (fun p => by simp [noneBackend])

/-- C7: the numbered prompt body contains exactly the units whose trimmed
text is non-empty, rendered `"{1-based position}. {text}"` and joined by a
blank-line separator; and when every unit of the batch trims to empty the
backend is irrelevant (never invoked) and all units come back unchanged. -/
theorem c7_prompt_body (texts : List String) :
    numberedTexts 1 texts =
      texts.enum.filterMap (fun pr =>
        if pyStrip pr.2 = "" then none
        else some (toString (pr.1 + 1) ++ ". " ++ pr.2)) ∧
    buildBatchText texts = String.intercalate "\n\n" (numberedTexts 1 texts) ∧
    ((∀ t ∈ texts, pyStrip t = "") →
      ∀ (b1 b2 : Backend) (bi : Nat),
        translate_batch b1 texts bi = texts ∧
        translate_batch b1 texts bi = translate_batch b2 texts bi) := by
  refine ⟨?_, rfl, ?_⟩
  · have h := numberedTexts_enumFrom 0 texts
    simpa [List.enum] using h
  · intro hall b1 b2 bi
    have hn := numberedTexts_all_empty 1 texts hall
    constructor <;> simp [translate_batch, hn]

theorem c7_prompt_body_witness :
    (∀ t ∈ (["", "  "] : List String), pyStrip t = "") ∧
    translate_batch (constBackend "1. X") ["", "  "] 0 = ["", "  "] := by
  have hall : ∀ t ∈ (["", "  "] : List String), pyStrip t = "" := by decide
  exact ⟨hall,
    ((c7_prompt_body ["", "  "]).2.2 hall (constBackend "1. X") noneBackend 0).1⟩

/-- C10: whenever the run reaches the summary step, the summary's status
is the string "completed" and its `paragraphs_translated` count equals its
`total_paragraphs` count, for every backend behaviour — the counts never
reflect backend failures. -/
theorem c10_summary_always_completed (backend : Backend) (cfg : ConfigMap)
    (dc : DocContent) (_h : 0 < cfgBatchSize cfg) :
    ((run_translation backend cfg dc).2).status = "completed" ∧
    ((run_translation backend cfg dc).2).paragraphs_translated =
      ((run_translation backend cfg dc).2).total_paragraphs := by
  constructor
  · rfl
  · show (process_paragraphs_cfg backend cfg dc.paragraphs).length =
      dc.paragraphs.length
    exact processAuxS_length backend (cfgBatchSize cfg - 1) dc.paragraphs 0

theorem c10_summary_always_completed_witness :
    0 < cfgBatchSize DEFAULT_CONFIG ∧
    ((run_translation noneBackend DEFAULT_CONFIG
        ⟨[mkPara 0 "x", mkPara 1 "y"], [], [], ⟨2, 0, 0⟩⟩).2).status
      = "completed" ∧
    ((run_translation noneBackend DEFAULT_CONFIG
        ⟨[mkPara 0 "x", mkPara 1 "y"], [], [], ⟨2, 0, 0⟩⟩).2).paragraphs_translated =
    ((run_translation noneBackend DEFAULT_CONFIG
        ⟨[mkPara 0 "x", mkPara 1 "y"], [], [], ⟨2, 0, 0⟩⟩).2).total_paragraphs := by
  refine ⟨by decide, ?_⟩
  exact c10_summary_always_completed noneBackend DEFAULT_CONFIG _ (by decide)

/-- C4: during patch-based writing, for a paragraph with an image and
non-empty translated text, the translated text goes into the first
non-image run when one exists, else is appended as a new trailing run
prefixed with a space; image-bearing runs are never cleared or removed in
any branch of the paragraph update; and the image catalog is passed
through to the writer unchanged. -/
theorem c4_image_runs_preserved (runs : List Run) (t : String)
    (h : pyStrip t ≠ "") :
    (update_paragraph_text runs t true =
      (match firstNonPicIdx runs with
       | some i => runs.take i ++ { hasPic := false, text := t } :: runs.drop (i + 1)
       | none => runs ++ [{ hasPic := false, text := " " ++ t }])) ∧
    (∀ hi : Bool, (update_paragraph_text runs t hi).filter Run.hasPic =
      runs.filter Run.hasPic) ∧
    (∀ (tps : List Para) (tts : List TableSnap) (dc : DocContent),
      (create_translated_content tps tts dc).images = dc.images) := by
  refine ⟨?_, ?_, fun _ _ _ => rfl⟩
  · unfold update_paragraph_text
    rw [if_neg (by simp), if_pos ⟨h, rfl⟩, setFirstNonPic_eq]
    cases firstNonPicIdx runs <;> simp
  · intro hi
    cases hi
    · unfold update_paragraph_text
      rw [if_pos ⟨h, rfl⟩]
      cases hm : setFirstNonPic (clearNonPicTexts runs) t with
      | none =>
        simp only [hm, List.filter_append]
        rw [filter_clearNonPic]
        simp
      | some rs =>
        simp only [hm]
        rw [setFirstNonPic_filter (clearNonPicTexts runs) t rs hm,
          filter_clearNonPic]
    · unfold update_paragraph_text
      rw [if_neg (by simp), if_pos ⟨h, rfl⟩]
      cases hm : setFirstNonPic runs t with
      | none => simp [hm, List.filter_append]
      | some rs =>
        simp only [hm]
        exact setFirstNonPic_filter runs t rs hm

theorem c4_image_runs_preserved_witness :
    pyStrip "New" ≠ "" ∧
    update_paragraph_text [⟨true, "IMG"⟩, ⟨false, "old"⟩] "New" true =
      [⟨true, "IMG"⟩, ⟨false, "New"⟩] ∧
    (update_paragraph_text [⟨true, "IMG"⟩, ⟨false, "old"⟩] "New" true).filter
      Run.hasPic = [⟨true, "IMG"⟩] := by
  have h : pyStrip "New" ≠ "" := by decide
  obtain ⟨h1, h2, _⟩ :=
    c4_image_runs_preserved [⟨true, "IMG"⟩, ⟨false, "old"⟩] "New" h
  refine ⟨h, ?_, ?_⟩
  · rw [h1]; decide
  · rw [h2 true]; decide

/-- C8 counterexample: for a paragraph with two picture-bearing runs, the
analyzer keeps the SECOND run's embed identifier, not the first embedded
image's identifier as the claim states. -/
theorem c8_first_image_cex :
    (analyze_paragraph_structure
        [⟨false, false, true, [some "rId1"]⟩,
         ⟨false, false, true, [some "rId2"]⟩]).imageData = some "rId2" ∧
    claimImageData
        [⟨false, false, true, [some "rId1"]⟩,
         ⟨false, false, true, [some "rId2"]⟩] = some "rId1" ∧
    (some "rId2" : Option String) ≠ some "rId1" := by
  refine ⟨rfl, rfl, by decide⟩

/-- C8 amended: `hasImage` is true exactly when some run carries an
embedded-picture marker; `imageData` holds the first truthy embed
identifier of the LAST picture-bearing run contributing one — each later
picture run with a truthy identifier overwrites the stored value. -/
theorem c8_image_detection_amended (runs : List RunA) :
    (analyze_paragraph_structure runs).hasImage = runs.any (fun r => r.pics) ∧
    (analyze_paragraph_structure runs).imageData = lastRunImageData runs := by
  constructor
  · have h := foldl_hasImage runs
      { isBold := false, isItalic := false, hasImage := false, imageData := none }
    simpa [analyze_paragraph_structure] using h
  · have h := foldl_imageData runs
      { isBold := false, isItalic := false, hasImage := false, imageData := none }
    unfold analyze_paragraph_structure lastRunImageData
    rw [h]
    cases firstPicData runs.reverse <;> simp

/-- C9 counterexample: with the `batch_size` key absent from the
configuration, the batch loop uses `config.get('batch_size', 3)` = 3, not
2 — a four-unit document is partitioned `[3, 1]`, not `[2, 2]`. -/
theorem c9_default_batch_size_cex :
    cfgBatchSize { DEFAULT_CONFIG with batch_size := none } = 3 ∧
    cfgBatchSize { DEFAULT_CONFIG with batch_size := none } ≠ 2 ∧
    (chunksOfS (cfgBatchSize { DEFAULT_CONFIG with batch_size := none } - 1)
        [mkPara 0 "a", mkPara 1 "b", mkPara 2 "c", mkPara 3 "d"]).map
      List.length = [3, 1] := by
  refine ⟨rfl, by decide, ?_⟩
  show (chunksOfS 2
    [mkPara 0 "a", mkPara 1 "b", mkPara 2 "c", mkPara 3 "d"]).map
      List.length = [3, 1]
  simp [chunksOfS]

/-- C9 amended: the default configuration carries target language "Hindi"
and batch size 2 (used when the configuration file is absent), but when
the `batch_size` key is absent from the configuration mapping handed to
the batch processor, `process_paragraphs` falls back to batch size 3. -/
theorem c9_defaults_amended (cfg : ConfigMap) (backend : Backend)
    (paras : List Para) (h : cfg.batch_size = none) :
    DEFAULT_CONFIG.target_language = "Hindi" ∧
    DEFAULT_CONFIG.batch_size = some 2 ∧
    cfgBatchSize cfg = 3 ∧
    process_paragraphs_cfg backend cfg paras =
      process_paragraphs backend 3 paras := by
  refine ⟨rfl, rfl, ?_, ?_⟩
  · simp [cfgBatchSize, h]
  · simp [process_paragraphs_cfg, cfgBatchSize, h]

theorem c9_defaults_amended_witness :
    ({ DEFAULT_CONFIG with batch_size := none } : ConfigMap).batch_size = none ∧
    cfgBatchSize { DEFAULT_CONFIG with batch_size := none } = 3 := by
  refine ⟨rfl, ?_⟩
  exact (c9_defaults_amended { DEFAULT_CONFIG with batch_size := none }
    noneBackend [] rfl).2.2.1

/-- C5 counterexample: on the cleaned text `"1.\nfoo\n2. bar"` (a fixed
point of the cleaner) the parser yields `["bar"]`, while the claim's
policy — every `N.` marker starts a new item, following non-marker lines
are space-joined onto it — yields `["foo", "bar"]`: a marker whose
remainder is empty starts no item and its following lines are dropped. -/
theorem c5_marker_items_cex :
    clean_translation_result "1.\nfoo\n2. bar" = "1.\nfoo\n2. bar" ∧
    splitItems "1.\nfoo\n2. bar" = ["bar"] ∧
    claimItems "1.\nfoo\n2. bar" = ["foo", "bar"] ∧
    splitItems "1.\nfoo\n2. bar" ≠ claimItems "1.\nfoo\n2. bar" := by
  exact ⟨by decide, by decide, by decide, by decide⟩

/-- C5 amended: the parser splits the cleaned text at lines beginning with
an integer followed by a period, in textual marker order (never by the
numeric value), space-joining subsequent non-marker non-empty lines onto
the current item — except that a marker whose marker-stripped text is
empty starts no item: it resets the accumulator, so the lines after it
are discarded until the next marker, and no empty item is emitted
(`amendedLoop` is exactly the claimed policy with that one change). -/
theorem c5_marker_items_amended (s : String) :
    splitItems s = amendedLoop (splitNl s) none := by
  have h := parseLoop_eq_amended (splitNl s) "" []
  simpa [splitItems, optOfStr] using h

end CrewTrans
